import Mathlib

/-!
Verification development for the `market_data_engine` repository.

The file shallowly embeds the parts of the C++ source that the
specification talks about:

* `src/include/LockFreeRingBuffer.hpp` — the Vyukov-style MPMC bounded
  ring (`LockFreeRingBuffer`, `try_push`, `try_pop`, `capacity`),
* `src/include/Types.hpp` — `PerformanceMetrics`, `VWAPTracker`,
  `InstrumentStats`, `MarketDataPoint`,
* `src/src/DatabentoHandler.cpp` / `src/include/DatabentoHandler.hpp` —
  `ProcessBBORecord`, `ConvertPrice`, the constructor and `CreateFromEnv`,
* `src/src/main.cpp` — the consumer loop body.

Modelling conventions:

* Executions are sequential: each `try_push` / `try_pop` is one atomic
  step (the setting of the sequential claims: single producer and single
  consumer interleaved at operation granularity).
* `size_t` / `uint64_t` counters are modelled as `Nat`.  Positions and
  sequence numbers grow monotonically from `0`; a run would need `2^64`
  operations before C++ wrap-around differs, which the source itself
  documents as out of scope, so no `% 2^64` is applied.
* The C++ slot array `std::array<Slot, N>` is modelled as a total
  function `Nat → Slot T`; every index the code computes is masked by
  `N - 1` and therefore lies below `N`.
* `double` values are modelled as exact rationals (`ℚ`): claims about the
  metric formulas and price conversion are statements about the real
  numbers the floating-point code approximates.
-/

namespace MarketDataEngine

/-- One element of the ring array (source `struct Slot`): a sequence
number used for MPMC coordination plus the payload. -/
structure Slot (T : Type) where
  sequence : Nat
  data : T

/-- The ring state (source class `LockFreeRingBuffer<T, N>`): the slot
array and the producer/consumer cursors.  The array is modelled as a
total function on `Nat`; the code only ever reads indices `pos &&& (N-1) < N`. -/
structure LockFreeRingBuffer (T : Type) (N : Nat) where
  buffer_ : Nat → Slot T
  enqueue_pos_ : Nat
  dequeue_pos_ : Nat

/-- `MASK = N - 1` (source `static constexpr std::size_t MASK = N - 1`). -/
def MASK (N : Nat) : Nat := N - 1

/-- The freshly constructed ring (source constructor): every slot `i`
starts with `sequence = i`, the payload default-initialized, and both
cursors at `0`. -/
def initialRing (T : Type) [Inhabited T] (N : Nat) : LockFreeRingBuffer T N :=
  { buffer_ := fun i => { sequence := i, data := default }
    enqueue_pos_ := 0
    dequeue_pos_ := 0 }

/-- Outcome of one `try_push` executed as a single atomic step.
`success` carries the post-state (the C++ call returns `true`), `full`
is the `diff < 0` early return (`false`).  `spin` marks the `diff > 0`
branch: single-threaded, the loop would reload the same `enqueue_pos_`
and spin forever, so no post-state exists; the development proves this
branch is unreachable from the initial ring. -/
inductive PushResult (T : Type) (N : Nat) where
  | success (r' : LockFreeRingBuffer T N)
  | full
  | spin

/-- Outcome of one `try_pop` executed as a single atomic step; `success`
also carries the popped item (the C++ out-parameter). -/
inductive PopResult (T : Type) (N : Nat) where
  | success (r' : LockFreeRingBuffer T N) (item : T)
  | empty
  | spin

/-- `try_push` (LockFreeRingBuffer.hpp lines 58–90) as one atomic step:
read `pos` from the enqueue cursor, read the sequence of slot
`pos & MASK`, branch on the signed difference `seq - pos`; on `0` claim
the slot (the CAS trivially succeeds single-threaded), store the item
and publish `sequence = pos + 1`. -/
def LockFreeRingBuffer.try_push {T : Type} {N : Nat}
    (r : LockFreeRingBuffer T N) (item : T) : PushResult T N :=
  let pos := r.enqueue_pos_
  let slot := pos &&& MASK N
  let seq := (r.buffer_ slot).sequence
  let diff : Int := (seq : Int) - (pos : Int)
  if diff = 0 then
    PushResult.success
      { r with
        enqueue_pos_ := pos + 1
        buffer_ := Function.update r.buffer_ slot { sequence := pos + 1, data := item } }
  else if diff < 0 then
    PushResult.full
  else
    PushResult.spin

/-- `try_pop` (LockFreeRingBuffer.hpp lines 98–130) as one atomic step:
read `pos` from the dequeue cursor, branch on `seq - (pos + 1)`; on `0`
claim the slot, read the item and release the slot for the next epoch
with `sequence = pos + N`. -/
def LockFreeRingBuffer.try_pop {T : Type} {N : Nat}
    (r : LockFreeRingBuffer T N) : PopResult T N :=
  let pos := r.dequeue_pos_
  let slot := pos &&& MASK N
  let seq := (r.buffer_ slot).sequence
  let diff : Int := (seq : Int) - ((pos : Int) + 1)
  if diff = 0 then
    PopResult.success
      { r with
        dequeue_pos_ := pos + 1
        buffer_ := Function.update r.buffer_ slot
          { sequence := pos + N, data := (r.buffer_ slot).data } }
      (r.buffer_ slot).data
  else if diff < 0 then
    PopResult.empty
  else
    PopResult.spin

/-- `size()` (source lines 146–150): difference of the cursors. -/
def LockFreeRingBuffer.size {T : Type} {N : Nat} (r : LockFreeRingBuffer T N) : Nat :=
  r.enqueue_pos_ - r.dequeue_pos_

/-- `capacity()` (source lines 156–158): the source returns `N - 1`,
with the comment "One slot reserved to distinguish full from empty". -/
def LockFreeRingBuffer.capacity (N : Nat) : Nat := N - 1

/-- An abstract operation against the ring: push a value or pop. -/
inductive Op (T : Type) where
  | push (x : T)
  | pop

/-- What the caller observes from one operation: the boolean returned by
`try_push`, or the optional item delivered by `try_pop`. -/
inductive Obs (T : Type) where
  | pushed (ok : Bool)
  | popped (x : Option T)
deriving DecidableEq

/-- One driver step against the ring.  `none` encodes the `spin` branch
(no single-threaded post-state); it is proved unreachable from the
initial ring. -/
def ringStep {T : Type} {N : Nat} (r : LockFreeRingBuffer T N) :
    Op T → Option (LockFreeRingBuffer T N × Obs T)
  | Op.push x =>
    match r.try_push x with
    | PushResult.success r' => some (r', Obs.pushed true)
    | PushResult.full => some (r, Obs.pushed false)
    | PushResult.spin => none
  | Op.pop =>
    match r.try_pop with
    | PopResult.success r' v => some (r', Obs.popped (some v))
    | PopResult.empty => some (r, Obs.popped none)
    | PopResult.spin => none

/-- Run a list of operations against the ring, collecting the
observations. -/
def runRing {T : Type} {N : Nat} :
    List (Op T) → LockFreeRingBuffer T N → Option (LockFreeRingBuffer T N × List (Obs T))
  | [], r => some (r, [])
  | op :: ops, r =>
    match ringStep r op with
    | none => none
    | some (r', o) =>
      match runRing ops r' with
      | none => none
      | some (r'', os) => some (r'', o :: os)

/-- The abstract bounded FIFO queue of capacity `N` that the ring is
claimed to implement: a push succeeds exactly when fewer than `N` items
are stored, a pop delivers the oldest stored item. -/
def qStep {T : Type} (N : Nat) (q : List T) : Op T → List T × Obs T
  | Op.push x => if q.length < N then (q ++ [x], Obs.pushed true) else (q, Obs.pushed false)
  | Op.pop =>
    match q with
    | [] => ([], Obs.popped none)
    | x :: t => (t, Obs.popped (some x))

/-- Run a list of operations against the abstract bounded queue. -/
def runQueue {T : Type} (N : Nat) : List (Op T) → List T → List T × List (Obs T)
  | [], q => (q, [])
  | op :: ops, q =>
    let p := qStep N q op
    let p' := runQueue N ops p.1
    (p'.1, p.2 :: p'.2)

/-! ### The coupling invariant between the ring and the abstract queue -/

/-- Coupling invariant between a ring state and the abstract queue it
represents: the cursors are at most `N` apart, the `q.length` pending
positions `dequeue_pos_ … enqueue_pos_ - 1` hold the queue's elements in
order with sequence `pos + 1` (filled), and the remaining positions of
the current window carry sequence `pos` (empty, ready for the producer
of epoch `pos / N`). -/
structure InvR {T : Type} {N : Nat} (r : LockFreeRingBuffer T N) (q : List T) : Prop where
  hle : r.dequeue_pos_ ≤ r.enqueue_pos_
  hbound : r.enqueue_pos_ ≤ r.dequeue_pos_ + N
  hlen : q.length = r.enqueue_pos_ - r.dequeue_pos_
  hfill : ∀ j, r.dequeue_pos_ ≤ j → j < r.enqueue_pos_ →
    (r.buffer_ (j % N)).sequence = j + 1
  hdata : ∀ j, (h : j < q.length) →
    (r.buffer_ ((r.dequeue_pos_ + j) % N)).data = q.get ⟨j, h⟩
  hempty : ∀ j, r.enqueue_pos_ ≤ j → j < r.dequeue_pos_ + N →
    (r.buffer_ (j % N)).sequence = j

/-- For `N = 2 ^ e`, the mask computation of the source coincides with
`% N` (the power-of-two `static_assert`). -/
theorem mask_eq_mod (e : Nat) {N : Nat} (hN : N = 2 ^ e) (pos : Nat) :
    pos &&& MASK N = pos % N := by
  subst hN
  simp [MASK, Nat.and_pow_two_sub_one_eq_mod]

/-- Two positions in one window of `N` consecutive positions that share
a residue modulo `N` are equal. -/
theorem window_inj {N a j₁ j₂ : Nat}
    (h₁ : a ≤ j₁) (h₁' : j₁ < a + N) (h₂ : a ≤ j₂) (h₂' : j₂ < a + N)
    (hmod : j₁ % N = j₂ % N) : j₁ = j₂ := by
  have hdvd : (N : Int) ∣ (j₂ : Int) - (j₁ : Int) :=
    (Nat.modEq_iff_dvd (n := N)).mp hmod
  have habs : |(j₂ : Int) - (j₁ : Int)| < (N : Int) := by
    rw [abs_lt]
    omega
  have h0 : (j₂ : Int) - (j₁ : Int) = 0 := Int.eq_zero_of_abs_lt_dvd hdvd habs
  omega

/-- Unfolded form of `try_push` (the `let`s substituted). -/
theorem try_push_eq {T : Type} {N : Nat} (r : LockFreeRingBuffer T N) (x : T) :
    r.try_push x =
      (if ((r.buffer_ (r.enqueue_pos_ &&& MASK N)).sequence : Int) - (r.enqueue_pos_ : Int) = 0
       then PushResult.success
         { r with
           enqueue_pos_ := r.enqueue_pos_ + 1
           buffer_ := Function.update r.buffer_ (r.enqueue_pos_ &&& MASK N)
             { sequence := r.enqueue_pos_ + 1, data := x } }
       else if ((r.buffer_ (r.enqueue_pos_ &&& MASK N)).sequence : Int) - (r.enqueue_pos_ : Int) < 0
       then PushResult.full
       else PushResult.spin) := rfl

/-- Unfolded form of `try_pop` (the `let`s substituted). -/
theorem try_pop_eq {T : Type} {N : Nat} (r : LockFreeRingBuffer T N) :
    r.try_pop =
      (if ((r.buffer_ (r.dequeue_pos_ &&& MASK N)).sequence : Int) - ((r.dequeue_pos_ : Int) + 1) = 0
       then PopResult.success
         { r with
           dequeue_pos_ := r.dequeue_pos_ + 1
           buffer_ := Function.update r.buffer_ (r.dequeue_pos_ &&& MASK N)
             { sequence := r.dequeue_pos_ + N
               data := (r.buffer_ (r.dequeue_pos_ &&& MASK N)).data } }
         (r.buffer_ (r.dequeue_pos_ &&& MASK N)).data
       else if ((r.buffer_ (r.dequeue_pos_ &&& MASK N)).sequence : Int) - ((r.dequeue_pos_ : Int) + 1) < 0
       then PopResult.empty
       else PopResult.spin) := rfl

/-- The freshly constructed ring is coupled to the empty queue. -/
theorem initialRing_inv (T : Type) [Inhabited T] (N : Nat) :
    InvR (initialRing T N) ([] : List T) := by
  refine ⟨?_, ?_, ?_, ?_, ?_, ?_⟩
  · simp [initialRing]
  · simp [initialRing]
  · simp [initialRing]
  · intro j h1 h2
    simp [initialRing] at h2
  · intro j h
    simp at h
  · intro j h1 h2
    simp only [initialRing] at h2 ⊢
    exact Nat.mod_eq_of_lt (by omega)

/-- From a coupled state with room (`q.length < N`), `try_push` succeeds
and the resulting state is coupled to `q ++ [x]`. -/
theorem try_push_success (e : Nat) {T : Type} {N : Nat} (hN : N = 2 ^ e)
    {r : LockFreeRingBuffer T N} {q : List T} (inv : InvR r q)
    (hroom : q.length < N) (x : T) :
    ∃ r', r.try_push x = PushResult.success r' ∧ InvR r' (q ++ [x]) := by
  have hle := inv.hle
  have hlen := inv.hlen
  have hlt : r.enqueue_pos_ < r.dequeue_pos_ + N := by omega
  have hseq : (r.buffer_ (r.enqueue_pos_ % N)).sequence = r.enqueue_pos_ :=
    inv.hempty r.enqueue_pos_ (Nat.le_refl _) hlt
  refine ⟨{ r with
      enqueue_pos_ := r.enqueue_pos_ + 1
      buffer_ := Function.update r.buffer_ (r.enqueue_pos_ % N)
        { sequence := r.enqueue_pos_ + 1, data := x } }, ?_, ?_⟩
  · rw [try_push_eq]
    simp only [mask_eq_mod e hN, hseq, sub_self, if_pos]
  · refine ⟨?_, ?_, ?_, ?_, ?_, ?_⟩
    · dsimp only
      omega
    · dsimp only
      omega
    · dsimp only
      simp only [List.length_append, List.length_cons, List.length_nil]
      omega
    · intro j hj1 hj2
      dsimp only at hj1 hj2 ⊢
      by_cases hje : j = r.enqueue_pos_
      · subst hje
        rw [Function.update_same]
      · have hjlt : j < r.enqueue_pos_ := by omega
        have hne : j % N ≠ r.enqueue_pos_ % N := by
          intro hcontra
          exact hje (window_inj hj1 (by omega) hle hlt hcontra)
        rw [Function.update_noteq hne]
        exact inv.hfill j hj1 hjlt
    · intro j hj
      dsimp only at hj ⊢
      simp only [List.length_append, List.length_cons, List.length_nil] at hj
      by_cases hje : j = q.length
      · subst hje
        have hidx : r.dequeue_pos_ + q.length = r.enqueue_pos_ := by omega
        rw [hidx, Function.update_same]
        simp
      · have hjq : j < q.length := by omega
        have hne : (r.dequeue_pos_ + j) % N ≠ r.enqueue_pos_ % N := by
          intro hcontra
          have : r.dequeue_pos_ + j = r.enqueue_pos_ :=
            window_inj (Nat.le_add_right _ _) (by omega) hle hlt hcontra
          omega
        rw [Function.update_noteq hne]
        have := inv.hdata j hjq
        rw [this]
        simp only [List.get_eq_getElem]
        exact (List.getElem_append_left hjq).symm
    · intro j hj1 hj2
      dsimp only at hj1 hj2 ⊢
      have hne : j % N ≠ r.enqueue_pos_ % N := by
        intro hcontra
        have : j = r.enqueue_pos_ := window_inj (by omega) hj2 hle hlt hcontra
        omega
      rw [Function.update_noteq hne]
      exact inv.hempty j (by omega) hj2

/-- From a coupled state with no room (`q.length = N`, `N ≥ 2`),
`try_push` reports a full ring. -/
theorem try_push_full (e : Nat) {T : Type} {N : Nat} (hN : N = 2 ^ e) (hN2 : 2 ≤ N)
    {r : LockFreeRingBuffer T N} {q : List T} (inv : InvR r q)
    (hfull : ¬ q.length < N) (x : T) : r.try_push x = PushResult.full := by
  have hle := inv.hle
  have hlen := inv.hlen
  have hbound := inv.hbound
  have hpose : r.enqueue_pos_ = r.dequeue_pos_ + N := by omega
  have hmodeq : r.enqueue_pos_ % N = r.dequeue_pos_ % N := by
    rw [hpose, Nat.add_mod_right]
  have hseq : (r.buffer_ (r.enqueue_pos_ % N)).sequence = r.dequeue_pos_ + 1 := by
    rw [hmodeq]
    exact inv.hfill r.dequeue_pos_ (Nat.le_refl _) (by omega)
  rw [try_push_eq]
  simp only [mask_eq_mod e hN, hseq]
  rw [if_neg (by omega), if_pos (by omega)]

/-- From a state coupled to the empty queue, `try_pop` reports an empty
ring. -/
theorem try_pop_empty (e : Nat) {T : Type} {N : Nat} (hN : N = 2 ^ e)
    {r : LockFreeRingBuffer T N} (inv : InvR r ([] : List T)) :
    r.try_pop = PopResult.empty := by
  have hle := inv.hle
  have hlen := inv.hlen
  have hNpos : 0 < N := hN ▸ Nat.two_pow_pos e
  have heq : r.enqueue_pos_ = r.dequeue_pos_ := by
    simp only [List.length_nil] at hlen
    omega
  have hseq : (r.buffer_ (r.dequeue_pos_ % N)).sequence = r.dequeue_pos_ :=
    inv.hempty r.dequeue_pos_ (by omega) (by omega)
  rw [try_pop_eq]
  simp only [mask_eq_mod e hN, hseq]
  rw [if_neg (by omega), if_pos (by omega)]

/-- From a state coupled to `x :: t`, `try_pop` succeeds, delivers `x`,
and the resulting state is coupled to `t`. -/
theorem try_pop_success (e : Nat) {T : Type} {N : Nat} (hN : N = 2 ^ e)
    {r : LockFreeRingBuffer T N} {q : List T} (inv : InvR r q)
    (x : T) (t : List T) (hq : q = x :: t) :
    ∃ r', r.try_pop = PopResult.success r' x ∧ InvR r' t := by
  subst hq
  have hle := inv.hle
  have hlen := inv.hlen
  have hbound := inv.hbound
  simp only [List.length_cons] at hlen
  have hlt : r.dequeue_pos_ < r.enqueue_pos_ := by omega
  have hseq : (r.buffer_ (r.dequeue_pos_ % N)).sequence = r.dequeue_pos_ + 1 :=
    inv.hfill r.dequeue_pos_ (Nat.le_refl _) hlt
  have hdat : (r.buffer_ (r.dequeue_pos_ % N)).data = x := by
    have := inv.hdata 0 (by simp)
    simpa using this
  refine ⟨{ r with
      dequeue_pos_ := r.dequeue_pos_ + 1
      buffer_ := Function.update r.buffer_ (r.dequeue_pos_ % N)
        { sequence := r.dequeue_pos_ + N
          data := (r.buffer_ (r.dequeue_pos_ % N)).data } }, ?_, ?_⟩
  · rw [try_pop_eq]
    simp only [mask_eq_mod e hN, hseq, hdat]
    rw [if_pos (by omega)]
  · refine ⟨?_, ?_, ?_, ?_, ?_, ?_⟩
    · dsimp only
      omega
    · dsimp only
      omega
    · dsimp only
      omega
    · intro j hj1 hj2
      dsimp only at hj1 hj2 ⊢
      have hne : j % N ≠ r.dequeue_pos_ % N := by
        intro hcontra
        have : j = r.dequeue_pos_ :=
          window_inj (by omega) (by omega) (Nat.le_refl _) (by omega) hcontra
        omega
      rw [Function.update_noteq hne]
      exact inv.hfill j (by omega) hj2
    · intro j hj
      dsimp only at hj ⊢
      have hne : (r.dequeue_pos_ + 1 + j) % N ≠ r.dequeue_pos_ % N := by
        intro hcontra
        have : r.dequeue_pos_ + 1 + j = r.dequeue_pos_ :=
          window_inj (by omega) (by omega) (Nat.le_refl _) (by omega) hcontra
        omega
      rw [Function.update_noteq hne]
      have hidx : r.dequeue_pos_ + 1 + j = r.dequeue_pos_ + (j + 1) := by omega
      rw [hidx]
      have := inv.hdata (j + 1) (by simp; omega)
      rw [this]
      simp
    · intro j hj1 hj2
      dsimp only at hj1 hj2 ⊢
      by_cases hje : j = r.dequeue_pos_ + N
      · subst hje
        rw [Nat.add_mod_right, Function.update_same]
      · have hjlt : j < r.dequeue_pos_ + N := by omega
        have hne : j % N ≠ r.dequeue_pos_ % N := by
          intro hcontra
          have : j = r.dequeue_pos_ :=
            window_inj (by omega) hjlt (Nat.le_refl _) (by omega) hcontra
          omega
        rw [Function.update_noteq hne]
        exact inv.hempty j hj1 hjlt

/-- The simulation: from any coupled pair, running the same operations
against the ring and against the abstract bounded queue produces the
same observations, and the final states are coupled again. -/
theorem runRing_simulates (e : Nat) {T : Type} {N : Nat} (hN : N = 2 ^ e) (hN2 : 2 ≤ N) :
    ∀ (ops : List (Op T)) (r : LockFreeRingBuffer T N) (q : List T), InvR r q →
      ∃ r', runRing ops r = some (r', (runQueue N ops q).2) ∧
        InvR r' (runQueue N ops q).1 := by
  intro ops
  induction ops with
  | nil =>
    intro r q inv
    exact ⟨r, rfl, inv⟩
  | cons op ops ih =>
    intro r q inv
    cases op with
    | push x =>
      by_cases hroom : q.length < N
      · obtain ⟨r', hpush, inv'⟩ := try_push_success e hN inv hroom x
        obtain ⟨r'', hrun, inv''⟩ := ih r' (q ++ [x]) inv'
        refine ⟨r'', ?_, ?_⟩
        · simp [runRing, ringStep, hpush, hrun, runQueue, qStep, hroom]
        · simpa [runQueue, qStep, hroom] using inv''
      · have hpush := try_push_full e hN hN2 inv hroom x
        obtain ⟨r'', hrun, inv''⟩ := ih r q inv
        refine ⟨r'', ?_, ?_⟩
        · simp [runRing, ringStep, hpush, hrun, runQueue, qStep, hroom]
        · simpa [runQueue, qStep, hroom] using inv''
    | pop =>
      cases q with
      | nil =>
        have hpop := try_pop_empty e hN inv
        obtain ⟨r'', hrun, inv''⟩ := ih r [] inv
        refine ⟨r'', ?_, ?_⟩
        · simp [runRing, ringStep, hpop, hrun, runQueue, qStep]
        · simpa [runQueue, qStep] using inv''
      | cons x t =>
        obtain ⟨r', hpop, inv'⟩ := try_pop_success e hN inv x t rfl
        obtain ⟨r'', hrun, inv''⟩ := ih r' t inv'
        refine ⟨r'', ?_, ?_⟩
        · simp [runRing, ringStep, hpop, hrun, runQueue, qStep]
        · simpa [runQueue, qStep] using inv''

/-- States reachable from the freshly initialized ring by finite
sequences of `try_push` / `try_pop` steps (failed operations leave the
state unchanged, so only successful steps matter). -/
inductive Reachable {T : Type} [Inhabited T] {N : Nat} : LockFreeRingBuffer T N → Prop where
  | init : Reachable (initialRing T N)
  | push (r r' : LockFreeRingBuffer T N) (x : T) :
      Reachable r → r.try_push x = PushResult.success r' → Reachable r'
  | pop (r r' : LockFreeRingBuffer T N) (x : T) :
      Reachable r → r.try_pop = PopResult.success r' x → Reachable r'

/-- Every reachable ring state is coupled to some abstract queue. -/
theorem reachable_inv (e : Nat) {T : Type} [Inhabited T] {N : Nat}
    (hN : N = 2 ^ e) (hN2 : 2 ≤ N) {r : LockFreeRingBuffer T N}
    (h : Reachable r) : ∃ q, InvR r q := by
  induction h with
  | init => exact ⟨[], initialRing_inv T N⟩
  | push r r' x hr hstep ih =>
    obtain ⟨q, inv⟩ := ih
    by_cases hroom : q.length < N
    · obtain ⟨r'', hpush, inv'⟩ := try_push_success e hN inv hroom x
      rw [hstep] at hpush
      injection hpush with h'
      exact ⟨q ++ [x], h' ▸ inv'⟩
    · have hfull := try_push_full e hN hN2 inv hroom x
      rw [hstep] at hfull
      exact absurd hfull (by simp)
  | pop r r' x hr hstep ih =>
    obtain ⟨q, inv⟩ := ih
    cases q with
    | nil =>
      have hempty := try_pop_empty e hN inv
      rw [hstep] at hempty
      exact absurd hempty (by simp)
    | cons y t =>
      obtain ⟨r'', hpop, inv'⟩ := try_pop_success e hN inv y t rfl
      rw [hstep] at hpop
      injection hpop with h' h''
      exact ⟨t, h' ▸ inv'⟩

/-- In any window of `N` consecutive positions starting at `a`, each
residue `i < N` has exactly one representative. -/
theorem exists_window_rep {N : Nat} (hNpos : 0 < N) (a i : Nat) (hi : i < N) :
    ∃ j, a ≤ j ∧ j < a + N ∧ j % N = i := by
  refine ⟨a + (i + N - a % N) % N, Nat.le_add_right _ _,
    Nat.add_lt_add_left (Nat.mod_lt _ hNpos) a, ?_⟩
  have hsplit : N * (a / N) + a % N = a := Nat.div_add_mod a N
  have hm : a % N < N := Nat.mod_lt _ hNpos
  rw [Nat.add_mod_mod]
  have heq : a + (i + N - a % N) = N * (a / N) + (i + N) := by omega
  rw [heq, Nat.mul_add_mod, Nat.add_mod_right]
  exact Nat.mod_eq_of_lt hi

/-- Running operations over an append splits into the two runs. -/
theorem runQueue_append {T : Type} (N : Nat) : ∀ (ops₁ ops₂ : List (Op T)) (q : List T),
    runQueue N (ops₁ ++ ops₂) q
      = ((runQueue N ops₂ (runQueue N ops₁ q).1).1,
         (runQueue N ops₁ q).2 ++ (runQueue N ops₂ (runQueue N ops₁ q).1).2) := by
  intro ops₁
  induction ops₁ with
  | nil => intro ops₂ q; simp [runQueue]
  | cons op ops ih => intro ops₂ q; simp [runQueue, ih]

/-- As long as there is room, `m` consecutive pushes against the
abstract queue all succeed. -/
theorem runQueue_replicate_push {T : Type} (N : Nat) (x : T) :
    ∀ (m : Nat) (q : List T), q.length + m ≤ N →
      runQueue N (List.replicate m (Op.push x)) q
        = (q ++ List.replicate m x, List.replicate m (Obs.pushed true)) := by
  intro m
  induction m with
  | zero => intro q h; simp [runQueue]
  | succ m ih =>
    intro q h
    have hroom : q.length < N := by omega
    have hrec := ih (q ++ [x]) (by simp; omega)
    simp [List.replicate_succ, runQueue, qStep, hroom, hrec]

/-- C1: in a sequential execution from the freshly initialized ring
(each `try_push` / `try_pop` one atomic step), the ring produces exactly
the observations of the bounded FIFO queue with `N` storage slots:
pushes succeed exactly while fewer than `N` values are stored, pops
deliver the successfully pushed values in push order, each exactly once,
and a drained ring pops nothing further — so no value is lost,
duplicated or reordered. -/
theorem ring_behaves_as_bounded_fifo {T : Type} [Inhabited T] {N : Nat} (e : Nat)
    (hN : N = 2 ^ e) (hN2 : 2 ≤ N) (ops : List (Op T)) :
    ∃ r', runRing ops (initialRing T N) = some (r', (runQueue N ops ([] : List T)).2) :=
  Exists.imp (fun _ h => h.1)
    (runRing_simulates e hN hN2 ops (initialRing T N) [] (initialRing_inv T N))

/-- Witness for C1 at `N = 4`: two pushes and three pops from the fresh
ring observe exactly what the FIFO queue prescribes. -/
theorem ring_behaves_as_bounded_fifo_witness :
    Option.map Prod.snd
        (runRing [Op.push 10, Op.push 20, Op.pop, Op.pop, Op.pop] (initialRing Nat 4))
      = some [Obs.pushed true, Obs.pushed true, Obs.popped (some 10),
              Obs.popped (some 20), Obs.popped none] := by
  obtain ⟨r', h⟩ :=
    ring_behaves_as_bounded_fifo (N := 4) 2 (by norm_num) (by norm_num)
      [Op.push 10, Op.push 20, Op.pop, Op.pop, Op.pop]
  rw [h]
  rfl

/-- C2: every state reachable from the initialized ring satisfies
`enqueue_pos − dequeue_pos ≤ N`, and each slot `i < N` carries a
sequence of the form `k·N + i` (empty at epoch `k`) or `k·N + i + 1`
(filled at epoch `k`) for some `k ≥ 0`. -/
theorem ring_reachable_state_invariant {T : Type} [Inhabited T] {N : Nat} (e : Nat)
    (hN : N = 2 ^ e) (hN2 : 2 ≤ N) {r : LockFreeRingBuffer T N} (hr : Reachable r) :
    r.enqueue_pos_ - r.dequeue_pos_ ≤ N ∧
    ∀ i, i < N → ∃ k, (r.buffer_ i).sequence = k * N + i ∨
      (r.buffer_ i).sequence = k * N + i + 1 := by
  obtain ⟨q, inv⟩ := reachable_inv e hN hN2 hr
  have hbound := inv.hbound
  refine ⟨by omega, ?_⟩
  intro i hi
  obtain ⟨j, hj1, hj2, hjmod⟩ := exists_window_rep (by omega) r.dequeue_pos_ i hi
  have hh := Nat.div_add_mod j N
  rw [hjmod] at hh
  by_cases hje : j < r.enqueue_pos_
  · have hs := inv.hfill j hj1 hje
    rw [hjmod] at hs
    refine ⟨j / N, Or.inr ?_⟩
    rw [hs, Nat.mul_comm]
    omega
  · have hs := inv.hempty j (by omega) hj2
    rw [hjmod] at hs
    refine ⟨j / N, Or.inl ?_⟩
    rw [hs, Nat.mul_comm]
    omega

/-- Witness for C2 at `N = 4` on the initial ring. -/
theorem ring_reachable_state_invariant_witness :
    (initialRing Nat 4).enqueue_pos_ - (initialRing Nat 4).dequeue_pos_ ≤ 4 ∧
    ∀ i, i < 4 → ∃ k, ((initialRing Nat 4).buffer_ i).sequence = k * 4 + i ∨
      ((initialRing Nat 4).buffer_ i).sequence = k * 4 + i + 1 :=
  ring_reachable_state_invariant (N := 4) 2 (by norm_num) (by norm_num) Reachable.init

/-- C3 (code bug): the accessor `capacity()` returns `N − 1` — its
comment claims one slot is reserved to distinguish full from empty —
yet the algorithm uses all `N` slots: from the fresh ring, `N`
consecutive pushes all succeed and the `(N+1)`-th returns false. -/
theorem capacity_accessor_mismatch {T : Type} [Inhabited T] {N : Nat} (e : Nat)
    (hN : N = 2 ^ e) (hN2 : 2 ≤ N) (x : T) :
    LockFreeRingBuffer.capacity N = N - 1 ∧
    ∃ r', runRing (List.replicate (N + 1) (Op.push x)) (initialRing T N)
        = some (r', List.replicate N (Obs.pushed true) ++ [Obs.pushed false]) := by
  refine ⟨rfl, ?_⟩
  obtain ⟨r', hrun, _⟩ :=
    runRing_simulates e hN hN2 (List.replicate (N + 1) (Op.push x))
      (initialRing T N) [] (initialRing_inv T N)
  refine ⟨r', ?_⟩
  rw [hrun]
  have hq : runQueue N (List.replicate (N + 1) (Op.push x)) ([] : List T)
      = (List.replicate N x,
         List.replicate N (Obs.pushed true) ++ [Obs.pushed false]) := by
    rw [List.replicate_succ' N (Op.push x), runQueue_append,
      runQueue_replicate_push N x N [] (by simp)]
    simp [runQueue, qStep]
  rw [hq]

/-- Witness for C3 at `N = 4`: `capacity()` evaluates to `3` while four
pushes from the fresh ring succeed and the fifth fails. -/
theorem capacity_accessor_mismatch_witness :
    LockFreeRingBuffer.capacity 4 = 4 - 1 ∧
    ∃ r', runRing (List.replicate (4 + 1) (Op.push (0 : Nat))) (initialRing Nat 4)
        = some (r', List.replicate 4 (Obs.pushed true) ++ [Obs.pushed false]) :=
  capacity_accessor_mismatch (N := 4) 2 (by norm_num) (by norm_num) 0

/-! ### Types.hpp: MarketDataPoint, PerformanceMetrics, VWAP -/

/-- `MarketDataPoint` (Types.hpp lines 9–27): the `double` fields are
modelled as exact rationals, `int64_t`/`int32_t` as `Int` and the
`uint32_t` sizes as `Nat`.  The default constructor zeroes everything. -/
structure MarketDataPoint where
  bid_px : ℚ
  ask_px : ℚ
  timestamp_delta : ℤ
  instrument_id : ℤ
  bid_sz : ℕ
  ask_sz : ℕ

instance : Inhabited MarketDataPoint :=
  ⟨{ bid_px := 0, ask_px := 0, timestamp_delta := 0,
     instrument_id := 0, bid_sz := 0, ask_sz := 0 }⟩

/-- `PerformanceMetrics` (Types.hpp lines 31–64): six `uint64_t`
counters, modelled as `Nat` (each atomic access is one step of the
sequential model). -/
structure PerformanceMetrics where
  messages_received : ℕ
  messages_processed : ℕ
  total_latency_ns : ℕ
  max_latency_ns : ℕ
  buffer_overruns : ℕ
  buffer_underruns : ℕ

/-- The all-zero counter bundle (the field initializers, also what
`Reset()` stores). -/
def PerformanceMetrics.Reset : PerformanceMetrics :=
  { messages_received := 0, messages_processed := 0, total_latency_ns := 0,
    max_latency_ns := 0, buffer_overruns := 0, buffer_underruns := 0 }

/-- `avg_latency_us()` (Types.hpp lines 40–45): `0.0` when nothing was
processed, else `total_latency_ns / processed / 1000.0` (microseconds);
the `double` arithmetic is modelled exactly over `ℚ`. -/
def PerformanceMetrics.avg_latency_us (m : PerformanceMetrics) : ℚ :=
  if m.messages_processed = 0 then 0
  else (m.total_latency_ns : ℚ) / (m.messages_processed : ℚ) / 1000

/-- `push_success_rate()` (Types.hpp lines 48–53): `0.0` when nothing
was received, else `1 − overruns / received`. -/
def PerformanceMetrics.push_success_rate (m : PerformanceMetrics) : ℚ :=
  if m.messages_received = 0 then 0
  else 1 - (m.buffer_overruns : ℚ) / (m.messages_received : ℚ)

/-- `VWAPTracker` (Types.hpp lines 67–79). -/
structure VWAPTracker where
  cum_px_qty : ℚ
  cum_qty : ℚ

/-- `VWAPTracker::add` (Types.hpp lines 71–74). -/
def VWAPTracker.add (t : VWAPTracker) (price qty : ℚ) : VWAPTracker :=
  { cum_px_qty := t.cum_px_qty + price * qty, cum_qty := t.cum_qty + qty }

/-- `VWAPTracker::vwap` (Types.hpp lines 76–78). -/
def VWAPTracker.vwap (t : VWAPTracker) : ℚ :=
  if t.cum_qty > 0 then t.cum_px_qty / t.cum_qty else 0

/-- `InstrumentStats` (Types.hpp lines 82–90). -/
structure InstrumentStats where
  vwap_tracker : VWAPTracker
  trades_processed : ℕ

/-- Freshly constructed `InstrumentStats` (all fields zero). -/
def initialInstrumentStats : InstrumentStats :=
  { vwap_tracker := { cum_px_qty := 0, cum_qty := 0 }, trades_processed := 0 }

/-- `InstrumentStats::update` (Types.hpp lines 86–89). -/
def InstrumentStats.update (s : InstrumentStats) (price qty : ℚ) : InstrumentStats :=
  { vwap_tracker := s.vwap_tracker.add price qty
    trades_processed := s.trades_processed + 1 }

/-- Apply a finite sequence of `(price, qty)` updates in order. -/
def applyUpdates (s : InstrumentStats) (l : List (ℚ × ℚ)) : InstrumentStats :=
  l.foldl (fun acc pq => acc.update pq.1 pq.2) s

/-! ### DatabentoHandler: price conversion, constructor, record/consumer steps -/

/-- `PRICE_SCALE` (DatabentoHandler.hpp line 135): `10⁹`. -/
def PRICE_SCALE : ℤ := 1000000000

/-- `UNDEF_PRICE` (DatabentoHandler.hpp line 136): `INT64_MAX`. -/
def UNDEF_PRICE : ℤ := 9223372036854775807

/-- `ConvertPrice` (DatabentoHandler.cpp lines 230–235): the sentinel
maps to `0.0`, every other raw fixed-point price to `raw / PRICE_SCALE`;
the `f64` division is modelled as exact division in `ℚ`. -/
def ConvertPrice (fixed_price : ℤ) : ℚ :=
  if fixed_price = UNDEF_PRICE then 0
  else (fixed_price : ℚ) / (PRICE_SCALE : ℚ)

/-- Slot count of the queue the handler builds: the template argument
is the literal `1024 * 1024` (DatabentoHandler.cpp line 11,
DatabentoHandler.hpp line 128). -/
def HANDLER_RING_N : ℕ := 1024 * 1024

/-- The handler state the claims mention: the ring (its slot count kept
as data) and the metrics.  The Databento client, the error callback and
the fetch thread are external collaborators without state the claims
refer to. -/
structure DatabentoHandlerModel where
  ring_slots : ℕ
  data_queue_ : LockFreeRingBuffer MarketDataPoint ring_slots
  metrics_ : PerformanceMetrics

/-- The `DatabentoHandler(api_key, queue_size)` constructor
(DatabentoHandler.cpp lines 10–24): `queue_size` is discarded
(`(void)queue_size;`) and the queue is built with the hard-coded
template argument `1024 * 1024`. -/
def mkDatabentoHandler (api_key : String) (queue_size : ℕ) : DatabentoHandlerModel :=
  { ring_slots := HANDLER_RING_N
    data_queue_ := initialRing MarketDataPoint HANDLER_RING_N
    metrics_ := PerformanceMetrics.Reset }

/-- `CreateFromEnv(queue_size)` (DatabentoHandler.cpp lines 32–45): the
environment lookup of `DATABENTO_API_KEY` is passed in as an
`Option String`; the two `throw`s become `Except.error`. -/
def CreateFromEnv (databento_api_key : Option String) (queue_size : ℕ) :
    Except String DatabentoHandlerModel :=
  match databento_api_key with
  | none => Except.error "DATABENTO_API_KEY environment variable not set"
  | some api_key =>
    if api_key = "" then Except.error "DATABENTO_API_KEY environment variable is empty"
    else Except.ok (mkDatabentoHandler api_key queue_size)

/-- Joint producer/consumer state: the shared handler ring and metrics,
plus the consumer-local per-instrument map and `processed` counter from
`main.cpp`. -/
structure SysState where
  queue : LockFreeRingBuffer MarketDataPoint HANDLER_RING_N
  metrics : PerformanceMetrics
  instrument_stats : ℤ → InstrumentStats
  processed : ℕ

/-- The system right after start-up: fresh ring, zero counters, empty
stats map. -/
def initialSysState : SysState :=
  { queue := initialRing MarketDataPoint HANDLER_RING_N
    metrics := PerformanceMetrics.Reset
    instrument_stats := fun _ => initialInstrumentStats
    processed := 0 }

/-- `ProcessBBORecord` (DatabentoHandler.cpp lines 165–227) for a BBO
record already converted to the data point `dp`, with the measured push
latency passed in (the wall-clock bracketing is external): on a
successful push the producer increments `messages_received` AND
`messages_processed`, adds the latency, and CAS-maxes `max_latency_ns`;
on a full ring it increments `buffer_overruns` (the throttled error
callback performs no state change the claims mention). -/
def ProcessBBORecord (st : SysState) (dp : MarketDataPoint) (latency_ns : ℕ) : SysState :=
  match st.queue.try_push dp with
  | PushResult.success q' =>
    { st with
      queue := q'
      metrics := { st.metrics with
        messages_received := st.metrics.messages_received + 1
        messages_processed := st.metrics.messages_processed + 1
        total_latency_ns := st.metrics.total_latency_ns + latency_ns
        max_latency_ns := max st.metrics.max_latency_ns latency_ns } }
  | PushResult.full =>
    { st with
      metrics := { st.metrics with
        buffer_overruns := st.metrics.buffer_overruns + 1 } }
  | PushResult.spin => st

/-- One iteration of the consumer loop body (main.cpp lines 33–57),
reporting omitted: on a successful pop the consumer bumps its local
counter and `messages_processed` and updates the instrument's stats
with the mid price and the average size; on a failed pop it only backs
off with the ~100 µs sleep — in particular `buffer_underruns` is left
untouched. -/
def consumerIteration (st : SysState) : SysState :=
  match st.queue.try_pop with
  | PopResult.success q' dp =>
    let qty : ℚ := ((dp.bid_sz : ℚ) + (dp.ask_sz : ℚ)) / 2
    let mid : ℚ := (dp.bid_px + dp.ask_px) / 2
    { st with
      queue := q'
      processed := st.processed + 1
      metrics := { st.metrics with
        messages_processed := st.metrics.messages_processed + 1 }
      instrument_stats := Function.update st.instrument_stats dp.instrument_id
        ((st.instrument_stats dp.instrument_id).update mid qty) }
  | PopResult.empty => st
  | PopResult.spin => st

/-! ### Claims C4–C10 -/

/-- C4 (code bug): a fully quiesced sequential run — one successful push
through `ProcessBBORecord`, then one successful pop by the consumer —
ends with `messages_processed = 2 > 1 = messages_received`: the producer
increments both counters per successful push and the consumer increments
`messages_processed` again per pop, so the claimed inequality
`messages_processed ≤ messages_received` fails. -/
theorem processed_exceeds_received_after_quiesce :
    (consumerIteration (ProcessBBORecord initialSysState default 0)).metrics.messages_received = 1 ∧
    (consumerIteration (ProcessBBORecord initialSysState default 0)).metrics.messages_processed = 2 := by
  constructor <;> rfl

/-- C7 (code bug): on a consumer iteration whose pop fails (fresh ring,
hence empty) the code leaves `buffer_underruns` unchanged — the counter
is never incremented anywhere — whereas the claim requires it to grow
by one before the ~100 µs back-off. -/
theorem failed_pop_does_not_count_underrun :
    initialSysState.queue.try_pop = PopResult.empty ∧
    (consumerIteration initialSysState).metrics.buffer_underruns
      = initialSysState.metrics.buffer_underruns := by
  constructor <;> rfl

/-- Concrete counters refuting C5 as stated: one successful and one
failed push. -/
def metricsC5 : PerformanceMetrics :=
  { messages_received := 1, messages_processed := 0, total_latency_ns := 0,
    max_latency_ns := 0, buffer_overruns := 1, buffer_underruns := 0 }

/-- C5 counterexample: with `received = 1`, `overruns = 1` the code
returns `1 − 1/1 = 0`, while the spec formula
`1 − overruns / max(1, received + overruns)` gives `1 − 1/2 = 1/2`. -/
theorem push_success_rate_spec_formula_fails :
    metricsC5.push_success_rate ≠
      1 - (metricsC5.buffer_overruns : ℚ)
        / max 1 ((metricsC5.messages_received : ℚ) + (metricsC5.buffer_overruns : ℚ)) := by
  norm_num [PerformanceMetrics.push_success_rate, metricsC5]

/-- C5 (amended): `push_success_rate()` returns 0 when
`messages_received = 0`, and `1 − buffer_overruns / messages_received`
otherwise — the denominator is the received count alone, not
`max(1, received + overruns)`. -/
theorem push_success_rate_formula (m : PerformanceMetrics) :
    (m.messages_received = 0 → m.push_success_rate = 0) ∧
    (m.messages_received ≠ 0 →
      m.push_success_rate
        = 1 - (m.buffer_overruns : ℚ) / (m.messages_received : ℚ)) := by
  constructor
  · intro h
    simp [PerformanceMetrics.push_success_rate, h]
  · intro h
    simp [PerformanceMetrics.push_success_rate, h]

/-- Concrete counters for the C5 witness: five received, two overruns. -/
def metricsC5w : PerformanceMetrics :=
  { messages_received := 5, messages_processed := 0, total_latency_ns := 0,
    max_latency_ns := 0, buffer_overruns := 2, buffer_underruns := 0 }

/-- Witness for the amended C5: at `received = 5`, `overruns = 2` the
rate is `1 − 2/5 = 3/5`. -/
theorem push_success_rate_formula_witness :
    metricsC5w.push_success_rate
      = 1 - (metricsC5w.buffer_overruns : ℚ) / (metricsC5w.messages_received : ℚ) ∧
    metricsC5w.push_success_rate = 3 / 5 :=
  ⟨(push_success_rate_formula metricsC5w).2 (by norm_num [metricsC5w]),
   by norm_num [PerformanceMetrics.push_success_rate, metricsC5w]⟩

/-- Concrete counters refuting C6 as stated: latency recorded but
nothing processed. -/
def metricsC6 : PerformanceMetrics :=
  { messages_received := 0, messages_processed := 0, total_latency_ns := 1000,
    max_latency_ns := 0, buffer_overruns := 0, buffer_underruns := 0 }

/-- C6 counterexample: with `processed = 0` and `total_latency_ns = 1000`
the accessor returns 0 (0 ns derived), while the spec formula
`total / max(1, processed)` gives 1000 ns. -/
theorem avg_latency_spec_formula_fails :
    metricsC6.avg_latency_us * 1000 ≠
      (metricsC6.total_latency_ns : ℚ) / max 1 (metricsC6.messages_processed : ℚ) := by
  norm_num [PerformanceMetrics.avg_latency_us, metricsC6]

/-- C6 (amended): the derived average latency in nanoseconds
(`avg_latency_us() · 1000`) equals `total_latency_ns / messages_processed`
when `messages_processed > 0`, and is 0 — not `total_latency_ns` — when
`messages_processed = 0`. -/
theorem avg_latency_formula (m : PerformanceMetrics) :
    (m.messages_processed = 0 → m.avg_latency_us = 0) ∧
    (m.messages_processed ≠ 0 →
      m.avg_latency_us * 1000
        = (m.total_latency_ns : ℚ) / (m.messages_processed : ℚ)) := by
  constructor
  · intro h
    simp [PerformanceMetrics.avg_latency_us, h]
  · intro h
    rw [PerformanceMetrics.avg_latency_us, if_neg h, div_mul_cancel₀]
    norm_num

/-- Concrete counters for the C6 witness: four processed, 8000 ns
total. -/
def metricsC6w : PerformanceMetrics :=
  { messages_received := 4, messages_processed := 4, total_latency_ns := 8000,
    max_latency_ns := 0, buffer_overruns := 0, buffer_underruns := 0 }

/-- Witness for the amended C6: `8000 / 4 = 2000` ns, i.e. 2 µs. -/
theorem avg_latency_formula_witness :
    metricsC6w.avg_latency_us * 1000
      = (metricsC6w.total_latency_ns : ℚ) / (metricsC6w.messages_processed : ℚ) ∧
    metricsC6w.avg_latency_us = 2 :=
  ⟨(avg_latency_formula metricsC6w).2 (by norm_num [metricsC6w]),
   by norm_num [PerformanceMetrics.avg_latency_us, metricsC6w]⟩

/-- C8: `ConvertPrice` maps the undefined-price sentinel
`2⁶³ − 1 = INT64_MAX` to 0.0 and every other raw value to `raw / 10⁹`
(the `f64` division modelled as exact division in `ℚ`). -/
theorem convertPrice_correct (raw : ℤ) :
    UNDEF_PRICE = 2 ^ 63 - 1 ∧
    (raw = 2 ^ 63 - 1 → ConvertPrice raw = 0) ∧
    (raw ≠ 2 ^ 63 - 1 → ConvertPrice raw = (raw : ℚ) / 10 ^ 9) := by
  refine ⟨by norm_num [UNDEF_PRICE], ?_, ?_⟩
  · intro h
    rw [ConvertPrice, if_pos (by rw [h]; norm_num [UNDEF_PRICE])]
  · intro h
    rw [ConvertPrice, if_neg (by rw [UNDEF_PRICE]; intro hc; exact h (by rw [hc]; norm_num))]
    norm_num [PRICE_SCALE]

/-- Witness for C8: `ConvertPrice 10⁹ = 1` and the sentinel maps to 0. -/
theorem convertPrice_correct_witness :
    ConvertPrice 1000000000 = ((1000000000 : ℤ) : ℚ) / 10 ^ 9 ∧
    ConvertPrice 1000000000 = 1 ∧
    ConvertPrice 9223372036854775807 = 0 :=
  ⟨(convertPrice_correct 1000000000).2.2 (by norm_num),
   by norm_num [ConvertPrice, UNDEF_PRICE, PRICE_SCALE],
   (convertPrice_correct 9223372036854775807).2.1 (by norm_num)⟩

/-- Running totals of `applyUpdates` over any starting stats. -/
theorem applyUpdates_fields : ∀ (l : List (ℚ × ℚ)) (s : InstrumentStats),
    (applyUpdates s l).vwap_tracker.cum_px_qty
      = s.vwap_tracker.cum_px_qty + (l.map (fun pq => pq.1 * pq.2)).sum ∧
    (applyUpdates s l).vwap_tracker.cum_qty
      = s.vwap_tracker.cum_qty + (l.map (fun pq => pq.2)).sum ∧
    (applyUpdates s l).trades_processed = s.trades_processed + l.length := by
  intro l
  induction l with
  | nil =>
    intro s
    simp [applyUpdates]
  | cons pq l ih =>
    intro s
    have hstep : applyUpdates s (pq :: l) = applyUpdates (s.update pq.1 pq.2) l := rfl
    have h := ih (s.update pq.1 pq.2)
    rw [hstep]
    refine ⟨?_, ?_, ?_⟩
    · rw [h.1]
      simp only [InstrumentStats.update, VWAPTracker.add, List.map_cons, List.sum_cons]
      ring
    · rw [h.2.1]
      simp only [InstrumentStats.update, VWAPTracker.add, List.map_cons, List.sum_cons]
      ring
    · rw [h.2.2]
      simp only [InstrumentStats.update, List.length_cons]
      omega

/-- C9: from fresh stats, applying `update(p_i, q_i)` over a finite
sequence accumulates `cum_px_qty = ∑ p_i·q_i` and `cum_qty = ∑ q_i`,
counts one trade per update, and `vwap()` returns
`∑ p_i·q_i / ∑ q_i` when `∑ q_i > 0` and 0 otherwise. -/
theorem instrument_stats_vwap (l : List (ℚ × ℚ)) :
    (applyUpdates initialInstrumentStats l).vwap_tracker.cum_px_qty
      = (l.map (fun pq => pq.1 * pq.2)).sum ∧
    (applyUpdates initialInstrumentStats l).vwap_tracker.cum_qty
      = (l.map (fun pq => pq.2)).sum ∧
    (applyUpdates initialInstrumentStats l).trades_processed = l.length ∧
    (applyUpdates initialInstrumentStats l).vwap_tracker.vwap
      = (if (l.map (fun pq => pq.2)).sum > 0
         then (l.map (fun pq => pq.1 * pq.2)).sum / (l.map (fun pq => pq.2)).sum
         else 0) := by
  obtain ⟨h1, h2, h3⟩ := applyUpdates_fields l initialInstrumentStats
  rw [show initialInstrumentStats.vwap_tracker.cum_px_qty = 0 from rfl, zero_add] at h1
  rw [show initialInstrumentStats.vwap_tracker.cum_qty = 0 from rfl, zero_add] at h2
  rw [show initialInstrumentStats.trades_processed = 0 from rfl, Nat.zero_add] at h3
  refine ⟨h1, h2, h3, ?_⟩
  rw [VWAPTracker.vwap, h1, h2]

/-- C10: the `queue_size` argument has no effect on the queue that is
built: the constructor and `CreateFromEnv` always produce a handler
whose ring has `1024 · 1024 = 1,048,576 = 2²⁰` slots. -/
theorem handler_queue_size_ignored (api_key : String) (queue_size : ℕ)
    (env : Option String) :
    (mkDatabentoHandler api_key queue_size).ring_slots = 1048576 ∧
    (∀ queue_size', mkDatabentoHandler api_key queue_size
        = mkDatabentoHandler api_key queue_size') ∧
    (∀ queue_size', CreateFromEnv env queue_size = CreateFromEnv env queue_size') ∧
    (Except.map (fun h => h.ring_slots) (CreateFromEnv env queue_size)
        = Except.map (fun _ => 1048576) (CreateFromEnv env queue_size)) := by
  refine ⟨rfl, fun _ => rfl, fun _ => rfl, ?_⟩
  cases env with
  | none => rfl
  | some k =>
    by_cases hk : k = ""
    · simp [CreateFromEnv, hk, Except.map]
    · simp [CreateFromEnv, hk, Except.map, mkDatabentoHandler, HANDLER_RING_N]

end MarketDataEngine
